import Mathlib

/-!
Verification of the core batch pipeline of `app.py` (URL batch downloader,
normalizer and transcriber).  The Python source is shallowly embedded below:
pure helpers become Lean functions; the filesystem becomes an explicit
association list from paths to files; the three external services (yt-dlp
fetch, ffmpeg transcode, whisper speech-to-text) become oracle fields of
environment records, with one field per distinct outcome the code branches
on (raised / completed, output produced / not, text returned).
-/

namespace App

/-! ## String helpers

Python string primitives used by the source (`str.strip`, `str.lower`,
`str.endswith`, `Path.stem` / `Path.suffix`, `os.path.basename`) modelled
on `List Char` so that every definition reduces by `decide`. -/

/-- Whitespace test used to model Python `str.strip()`. -/
def wsChar (c : Char) : Bool := c.isWhitespace

/-- Strip leading and trailing whitespace, as Python `str.strip()`:
drop whitespace from the front, then from the back (via reverse). -/
def trimChars (l : List Char) : List Char :=
  ((l.dropWhile wsChar).reverse.dropWhile wsChar).reverse

/-- Python `s.strip()` on a `String`. -/
def pyStrip (s : String) : String := ⟨trimChars s.data⟩

/-- Python `s.lower()` (ASCII case fold, which is all the source applies it to). -/
def lowerStr (s : String) : String := ⟨s.data.map Char.toLower⟩

/-- Python `s.endswith(t)`. -/
def endsWithStr (s t : String) : Bool := t.data.reverse.isPrefixOf s.data.reverse

/-- Python `s.startswith(t)`. -/
def startsWithStr (s t : String) : Bool := t.data.isPrefixOf s.data

/-- Index of the last `'.'` in a list of characters, as Python `str.rfind('.')`
(but `none` instead of `-1` when absent). -/
def rfindDot (l : List Char) : Option Nat :=
  match l.reverse.findIdx? (fun c => c = '.') with
  | some j => some (l.length - 1 - j)
  | none => none

/-- `pathlib` stem/suffix split of a file name: the suffix starts at the last
dot provided that dot is neither the first nor the last character, else the
suffix is empty (this is exactly `PurePath.stem` / `PurePath.suffix`). -/
def splitName (name : String) : String × String :=
  match rfindDot name.data with
  | some i =>
      if 0 < i ∧ i < name.data.length - 1 then (⟨name.data.take i⟩, ⟨name.data.drop i⟩)
      else (name, "")
  | none => (name, "")

/-- `os.path.basename`: the part of a path after the last `'/'`. -/
def basename (s : String) : String := ⟨(s.data.reverse.takeWhile (fun c => c ≠ '/')).reverse⟩

/-! ## Filename sanitizer (`sanitize_filename`, app.py lines 37-40) -/

/-- The characters removed by `re.sub(r'[\\/*?:"<>|]', "", name)`. -/
def illegalChars : List Char := ['\\', '/', '*', '?', ':', '\"', '<', '>', '|']

/-- Embedding of `sanitize_filename` (app.py lines 37-40): remove the
illegal characters, strip surrounding whitespace, and fall back to
`"media_file"` when nothing remains. -/
def sanitize_filename (name : String) : String :=
  if pyStrip ⟨name.data.filter (fun c => !(illegalChars.contains c))⟩ = "" then "media_file"
  else pyStrip ⟨name.data.filter (fun c => !(illegalChars.contains c))⟩

/-! ### Trimming lemmas -/

theorem mem_trimChars {c : Char} {l : List Char} (h : c ∈ trimChars l) : c ∈ l := by
  unfold trimChars at h
  have h1 := (List.mem_reverse).1 h
  have h2 := (List.dropWhile_sublist wsChar).mem h1
  have h3 := (List.mem_reverse).1 h2
  exact (List.dropWhile_sublist wsChar).mem h3

theorem head_dropWhile_not {p : Char → Bool} :
    ∀ (l : List Char) {c : Char}, (l.dropWhile p).head? = some c → p c = false := by
  intro l
  induction l with
  | nil => intro c h; simp [List.dropWhile] at h
  | cons a t ih =>
      intro c h
      by_cases hp : p a = true
      · rw [List.dropWhile_cons_of_pos hp] at h
        exact ih h
      · rw [List.dropWhile_cons_of_neg hp] at h
        simp at h
        subst h
        exact Bool.eq_false_iff.2 hp

theorem dropWhile_of_head_not {p : Char → Bool} :
    ∀ (l : List Char), (∀ c, l.head? = some c → p c = false) → l.dropWhile p = l := by
  intro l h
  cases l with
  | nil => rfl
  | cons a t =>
      have := h a rfl
      rw [List.dropWhile_cons_of_neg (by simp [this])]

theorem getLast_dropWhile_not {p : Char → Bool} (l : List Char) {c : Char}
    (h : (l.dropWhile p).getLast? = some c) : l.getLast? = some c := by
  obtain ⟨t, ht⟩ := (List.dropWhile_suffix p (l := l))
  rw [← ht, List.getLast?_append]
  cases hd : (l.dropWhile p).getLast? with
  | none => rw [hd] at h; exact absurd h (by simp)
  | some d =>
      rw [hd] at h
      simp at h
      subst h
      simp [Option.or]

theorem trimChars_head {l : List Char} {c : Char}
    (h : (trimChars l).head? = some c) : wsChar c = false := by
  unfold trimChars at h
  rw [List.head?_reverse] at h
  have h2 := getLast_dropWhile_not _ h
  rw [List.getLast?_reverse] at h2
  exact head_dropWhile_not _ h2

theorem trimChars_getLast {l : List Char} {c : Char}
    (h : (trimChars l).getLast? = some c) : wsChar c = false := by
  unfold trimChars at h
  rw [List.getLast?_reverse] at h
  exact head_dropWhile_not _ h

theorem trimChars_idem (l : List Char) : trimChars (trimChars l) = trimChars l := by
  have hfront : (trimChars l).dropWhile wsChar = trimChars l :=
    dropWhile_of_head_not _ (fun c hc => trimChars_head hc)
  show ((((trimChars l).dropWhile wsChar).reverse.dropWhile wsChar)).reverse = trimChars l
  rw [hfront]
  have hback : (trimChars l).reverse.dropWhile wsChar = (trimChars l).reverse := by
    refine dropWhile_of_head_not _ (fun c hc => ?_)
    rw [List.head?_reverse] at hc
    exact trimChars_getLast hc
  rw [hback, List.reverse_reverse]

theorem pyStrip_idem (s : String) : pyStrip (pyStrip s) = pyStrip s := by
  unfold pyStrip
  exact congrArg String.mk (trimChars_idem s.data)

/-! ### C5 -/

theorem sanitize_eq_cases (name : String) :
    sanitize_filename name = "media_file" ∨
      sanitize_filename name =
        pyStrip ⟨name.data.filter (fun c => !(illegalChars.contains c))⟩ := by
  unfold sanitize_filename
  split
  · exact Or.inl rfl
  · exact Or.inr rfl

theorem sanitize_filename_ne_empty (name : String) : sanitize_filename name ≠ "" := by
  unfold sanitize_filename
  split
  · decide
  · next h => exact h

/-- C5: `sanitize_filename` is total; its result never contains one of
`\ / * ? : " < > |`; it is never the empty string — unconditionally, for
every input; it carries no surrounding whitespace (it is a fixpoint of
stripping); and whenever removal and trimming leave nothing, the fixed
non-empty fallback token `"media_file"` is returned. -/
theorem C5_sanitize_total_safe (name : String) :
    (∀ c, c ∈ (sanitize_filename name).data → ¬ c ∈ illegalChars) ∧
    sanitize_filename name ≠ "" ∧
    pyStrip (sanitize_filename name) = sanitize_filename name ∧
    (pyStrip ⟨name.data.filter (fun c => !(illegalChars.contains c))⟩ = "" →
      sanitize_filename name = "media_file") := by
  refine ⟨?_, sanitize_filename_ne_empty name, ?_, ?_⟩
  · intro c hc
    rcases sanitize_eq_cases name with h | h
    · rw [h] at hc
      intro hmem
      fin_cases hmem <;> exact absurd hc (by decide)
    · rw [h] at hc
      have hmem := mem_trimChars hc
      have := List.of_mem_filter hmem
      simpa using this
  · rcases sanitize_eq_cases name with h | h
    · rw [h]; decide
    · rw [h]
      exact pyStrip_idem _
  · intro hempty
    unfold sanitize_filename
    rw [if_pos hempty]

/-- Witness for C5: at `" a/?b "` the result is non-empty, clean and
stripped; at `" /? "` (nothing survives removal and trimming) the fixed
fallback token is returned. -/
theorem C5_witness :
    ¬ 'a' ∈ illegalChars ∧ sanitize_filename " a/?b " ≠ "" ∧
      pyStrip (sanitize_filename " a/?b ") = sanitize_filename " a/?b " ∧
      sanitize_filename " /? " = "media_file" :=
  ⟨(C5_sanitize_total_safe " a/?b ").1 'a' (by decide),
   (C5_sanitize_total_safe " a/?b ").2.1,
   (C5_sanitize_total_safe " a/?b ").2.2.1,
   (C5_sanitize_total_safe " /? ").2.2.2 (by decide)⟩

/-! ## Filesystem model

The scratch directory is the only filesystem state the core touches.  A path
is a directory plus a file name (every path the source builds stays inside
the scratch directory: `path_obj.parent / output_filename`).  A file records
its size and, for transcript files, its text content. -/

/-- A filesystem path: directory part and file name part. -/
structure FPath where
  dir : String
  name : String
deriving DecidableEq, Repr

/-- `str(path)`: the full path string. -/
def fullPath (p : FPath) : String := p.dir ++ "/" ++ p.name

/-- A file on disk: its byte size and (for text files) its content. -/
structure FsFile where
  size : Nat
  content : String
deriving DecidableEq, Repr

/-- The filesystem: an association list from paths to files. -/
def Fs := List (FPath × FsFile)

instance : DecidableEq Fs := by unfold Fs; infer_instance

/-- `os.path.exists` / reading: the first entry with the given path. -/
def fsLookup (fs : Fs) (p : FPath) : Option FsFile :=
  (fs.find? (fun e => decide (e.1 = p))).map (fun e => e.2)

/-- Writing a file (`ffmpeg` output with `overwrite_output`, `open(...,"w")`). -/
def fsWrite (fs : Fs) (p : FPath) (fl : FsFile) : Fs :=
  (p, fl) :: fs.filter (fun e => !(decide (e.1 = p)))

/-- `os.remove`. -/
def fsRemove (fs : Fs) (p : FPath) : Fs :=
  fs.filter (fun e => !(decide (e.1 = p)))

/-- `os.listdir(dir)`: the names of the entries in `dir`. -/
def listDir (fs : Fs) (dir : String) : List String :=
  (fs.filter (fun e => decide (e.1.dir = dir))).map (fun e => e.1.name)

theorem fsLookup_fsWrite_self (fs : Fs) (p : FPath) (fl : FsFile) :
    fsLookup (fsWrite fs p fl) p = some fl := by
  simp [fsLookup, fsWrite, List.find?_cons]

theorem find?_filter_ne (fs : Fs) (p q : FPath) (hq : q ≠ p) :
    (fs.filter (fun e => !(decide (e.1 = p)))).find? (fun e => decide (e.1 = q)) =
      fs.find? (fun e => decide (e.1 = q)) := by
  induction fs with
  | nil => rfl
  | cons e t ih =>
      by_cases he : e.1 = p
      · rw [List.filter_cons, if_neg (by simp [he]), ih]
        rw [List.find?_cons]
        have : decide (e.1 = q) = false := by simp [he]; exact fun h => absurd h.symm hq
        rw [this]
      · rw [List.filter_cons, if_pos (by simp [he])]
        rw [List.find?_cons, List.find?_cons]
        cases hq2 : decide (e.1 = q) with
        | true => rfl
        | false => exact ih

theorem fsLookup_fsWrite_ne (fs : Fs) (p q : FPath) (fl : FsFile) (hq : q ≠ p) :
    fsLookup (fsWrite fs p fl) q = fsLookup fs q := by
  unfold fsLookup fsWrite
  rw [List.find?_cons]
  have : decide (p = q) = false := by simp; exact fun h => absurd h.symm hq
  rw [this, find?_filter_ne fs p q hq]

theorem fsLookup_fsRemove_ne (fs : Fs) (p q : FPath) (hq : q ≠ p) :
    fsLookup (fsRemove fs p) q = fsLookup fs q := by
  unfold fsLookup fsRemove
  rw [find?_filter_ne fs p q hq]

theorem fsLookup_fsWrite_isSome (fs : Fs) (p q : FPath) (fl : FsFile)
    (h : fsLookup fs q ≠ none) : fsLookup (fsWrite fs p fl) q ≠ none := by
  by_cases hqp : q = p
  · subst hqp; rw [fsLookup_fsWrite_self]; simp
  · rw [fsLookup_fsWrite_ne fs p q fl hqp]; exact h

/-! ## Media classification and output naming (`process_media`, app.py lines 42-80) -/

/-- Extensions of the video fallback allow-list (app.py line 61). -/
def videoExts : List String := [".mp4", ".mov", ".mkv", ".webm"]

/-- Extensions of the image fallback allow-list (app.py line 62). -/
def imageExts : List String := [".jpg", ".jpeg", ".png", ".webp", ".heic"]

/-- Environment of one `process_media` call: the `mimetypes.guess_type`
table and the outcome of each external call the function can make.
`ffmpegVideo`/`ffmpegImage`: `none` means `ffmpeg.run` raised; `some o`
means it completed, where `o` is the size of the output file it created
(`none` when no output appeared).  `whisper`: `none` means loading or
transcription raised; `some text` is the returned `result["text"]`. -/
structure PMEnv where
  guessType : String → Option String
  ffmpegVideo : Option (Option Nat)
  ffmpegImage : Option (Option Nat)
  whisper : Option String

/-- Result of `process_media`: the returned pair, the filesystem after the
call, and whether the external transcoder / speech-to-text services were
invoked at all. -/
structure PMResult where
  media : Option FPath
  transcript : Option FPath
  fs : Fs
  ffmpegCalled : Bool
  whisperCalled : Bool

/-- Media-kind detection of app.py lines 52-62: `mimetypes.guess_type`
first (`kind.startswith('video')` / `'image'`), then, only when the
guess is absent (falsy), the extension allow-lists on the lowercased
suffix.  Returns `(is_video, is_image)`. -/
def pmFlags (env : PMEnv) (input : FPath) : Bool × Bool :=
  let ks := (env.guessType (fullPath input)).getD ""
  let ext := lowerStr (splitName input.name).2
  (if ks = "" then decide (ext ∈ videoExts) else startsWithStr ks "video",
   if ks = "" then decide (ext ∈ imageExts) else startsWithStr ks "image")

/-- Output filename selection of app.py lines 64-77.  A custom name is
truthy only when non-empty (Python `if custom_name:`). -/
def outputFilename (isV isI : Bool) (inName : String) (custom : Option String)
    (index : Nat) : String :=
  if (custom.getD "") ≠ "" then
    let safe := sanitize_filename (custom.getD "")
    let safeN := if index > 0 then safe ++ "_" ++ toString (index + 1) else safe
    safeN ++ (if isV then ".mp4" else if isI then ".jpg" else (splitName inName).2)
  else
    if isV then (splitName inName).1 ++ "_1080p.mp4"
    else if isI then (splitName inName).1 ++ ".jpg"
    else inName

/-- The output path of a `process_media` call: `path_obj.parent / output_filename`. -/
def pmOutputPath (env : PMEnv) (input : FPath) (custom : Option String) (index : Nat) : FPath :=
  ⟨input.dir, outputFilename (pmFlags env input).1 (pmFlags env input).2 input.name custom index⟩

/-- The sibling transcript path: `output_path.parent / (output_path.stem + ".txt")`
(app.py lines 108-109). -/
def txtPathOf (output : FPath) : FPath :=
  ⟨output.dir, (splitName output.name).1 ++ ".txt"⟩

/-- The media path returned for a successfully normalized video (app.py
line 118): the output only in `video_only` / `both` modes. -/
def pmDeliver (mode : String) (output : FPath) : Option FPath :=
  if mode = "video_only" ∨ mode = "both" then some output else none

/-- Filesystem effect of a completed `ffmpeg.run`: write the output file
(of the size the oracle reports) or nothing when no output was produced. -/
def pmApplyOut (fs : Fs) (output : FPath) : Option Nat → Fs
  | some sz => fsWrite fs output ⟨sz, ""⟩
  | none => fs

/-- Video branch after `ffmpeg.run` completed and the output exists
(app.py lines 99-119): delete the original when distinct, then the
conditional transcription with its swallowed exceptions. -/
def pmVideoPost (env : PMEnv) (fs2 : Fs) (output : FPath) (mode : String) : PMResult :=
  if mode = "transcript_only" ∨ mode = "both" then
    match env.whisper with
    | none => ⟨pmDeliver mode output, none, fs2, true, true⟩
    | some text =>
        ⟨pmDeliver mode output, some (txtPathOf output),
         fsWrite fs2 (txtPathOf output) ⟨(pyStrip text).data.length, pyStrip text⟩, true, true⟩
  else ⟨pmDeliver mode output, none, fs2, true, false⟩

/-- Video branch after `ffmpeg.run` completed (app.py lines 99-119): when
the output file does not exist, control falls through to `return
str(input_path), None` at line 142. -/
def pmVideoRun (env : PMEnv) (fs1 : Fs) (input output : FPath) (mode : String) : PMResult :=
  if (fsLookup fs1 output).isNone then ⟨some input, none, fs1, true, false⟩
  else pmVideoPost env (if input = output then fs1 else fsRemove fs1 input) output mode

/-- Video processing (app.py lines 83-123): on an `ffmpeg` exception the
`except` branch returns the original path (line 123). -/
def pmVideo (env : PMEnv) (fs : Fs) (input output : FPath) (mode : String) : PMResult :=
  match env.ffmpegVideo with
  | none => ⟨some input, none, fs, true, false⟩
  | some created => pmVideoRun env (pmApplyOut fs output created) input output mode

/-- Image branch after `ffmpeg.run` completed (app.py lines 130-136 and
the line 142 fall-through when the output is missing). -/
def pmImageRun (fs1 : Fs) (input output : FPath) : PMResult :=
  if (fsLookup fs1 output).isNone then ⟨some input, none, fs1, true, false⟩
  else ⟨some output, none, if input = output then fs1 else fsRemove fs1 input, true, false⟩

/-- Image `except` branch (app.py lines 137-140): `shutil.move` the original
onto the target name when distinct, and return the output path. -/
def pmImageExc (fs : Fs) (input output : FPath) : PMResult :=
  if input = output then ⟨some output, none, fs, true, false⟩
  else
    match fsLookup fs input with
    | some fl => ⟨some output, none, fsWrite (fsRemove fs input) output fl, true, false⟩
    | none => ⟨some output, none, fs, true, false⟩

/-- Image processing (app.py lines 126-140): on an `ffmpeg` exception the
bare `except` moves the original onto the target name and still returns the
output path. -/
def pmImage (env : PMEnv) (fs : Fs) (input output : FPath) : PMResult :=
  match env.ffmpegImage with
  | none => pmImageExc fs input output
  | some created => pmImageRun (pmApplyOut fs output created) input output

/-- Embedding of `process_media` (app.py lines 42-142). -/
def process_media (env : PMEnv) (fs : Fs) (input : FPath) (custom : Option String)
    (index : Nat) (mode : String) : PMResult :=
  if (fsLookup fs input).isNone then ⟨none, none, fs, false, false⟩
  else if (pmFlags env input).1 then
    pmVideo env fs input (pmOutputPath env input custom index) mode
  else if (pmFlags env input).2 then
    if mode = "transcript_only" then ⟨none, none, fs, false, false⟩
    else pmImage env fs input (pmOutputPath env input custom index)
  else ⟨some input, none, fs, false, false⟩

/-! ### C9 -/

/-- C9: when the input path does not exist, `process_media` returns
`(None, None)`, leaves the filesystem untouched and invokes no external
service (app.py lines 49-50). -/
theorem C9_missing_input_noop (env : PMEnv) (fs : Fs) (input : FPath)
    (custom : Option String) (index : Nat) (mode : String)
    (h : fsLookup fs input = none) :
    process_media env fs input custom index mode = ⟨none, none, fs, false, false⟩ := by
  unfold process_media
  rw [if_pos]
  rw [h]
  rfl

/-- Witness for C9 on an empty filesystem. -/
theorem C9_witness :
    process_media ⟨fun _ => none, none, none, none⟩ [] ⟨"d", "v.mp4"⟩ none 0 "both" =
      ⟨none, none, [], false, false⟩ :=
  C9_missing_input_noop _ _ _ _ _ _ rfl

/-! ### C4 -/

theorem pmDeliver_transcript_only (output : FPath) :
    pmDeliver "transcript_only" output = none := by
  unfold pmDeliver
  rw [if_neg (by decide)]

theorem pmVideoPost_transcript_none (env : PMEnv) (fs2 : Fs) (output : FPath) (mode : String)
    (h : ¬ (mode = "transcript_only" ∨ mode = "both")) :
    (pmVideoPost env fs2 output mode).transcript = none := by
  unfold pmVideoPost
  rw [if_neg h]

theorem pmVideo_transcript_none (env : PMEnv) (fs : Fs) (input output : FPath) (mode : String)
    (h : ¬ (mode = "transcript_only" ∨ mode = "both")) :
    (pmVideo env fs input output mode).transcript = none := by
  unfold pmVideo
  cases env.ffmpegVideo with
  | none => rfl
  | some created =>
      show (pmVideoRun env (pmApplyOut fs output created) input output mode).transcript = none
      unfold pmVideoRun
      by_cases hout : (fsLookup (pmApplyOut fs output created) output).isNone = true
      · rw [if_pos hout]
      · rw [if_neg hout]
        exact pmVideoPost_transcript_none _ _ _ _ h

theorem pmImageExc_transcript_none (fs : Fs) (input output : FPath) :
    (pmImageExc fs input output).transcript = none := by
  unfold pmImageExc
  by_cases heq : input = output
  · rw [if_pos heq]
  · rw [if_neg heq]
    cases fsLookup fs input <;> rfl

theorem pmImage_transcript_none (env : PMEnv) (fs : Fs) (input output : FPath) :
    (pmImage env fs input output).transcript = none := by
  unfold pmImage
  cases env.ffmpegImage with
  | none => exact pmImageExc_transcript_none fs input output
  | some created =>
      show (pmImageRun (pmApplyOut fs output created) input output).transcript = none
      unfold pmImageRun
      by_cases hout : (fsLookup (pmApplyOut fs output created) output).isNone = true
      · rw [if_pos hout]
      · rw [if_neg hout]

theorem pmVideoPost_media_transcript_only (env : PMEnv) (fs2 : Fs) (output : FPath) :
    (pmVideoPost env fs2 output "transcript_only").media = none := by
  unfold pmVideoPost
  rw [if_pos (Or.inl rfl)]
  cases env.whisper <;> simp [pmDeliver_transcript_only]

/-- C4 (amended): with mode `video_only` the returned `transcript_path` is
always `None`, on every control path.  With mode `transcript_only` the
returned `media_path` is never the normalized output: it is `None` on the
success path, but on a transcode failure (exception or missing output file,
and for unclassified files) the original input path is returned as
`media_path` (app.py lines 118, 123, 142). -/
theorem C4_mode_gating_amended (env : PMEnv) (fs : Fs) (input : FPath)
    (custom : Option String) (index : Nat) :
    (process_media env fs input custom index "video_only").transcript = none ∧
    ((process_media env fs input custom index "transcript_only").media = none ∨
      (process_media env fs input custom index "transcript_only").media = some input) := by
  constructor
  · unfold process_media
    by_cases hni : (fsLookup fs input).isNone = true
    · rw [if_pos hni]
    · rw [if_neg hni]
      by_cases hv : (pmFlags env input).1 = true
      · rw [if_pos hv]
        exact pmVideo_transcript_none _ _ _ _ _ (by decide)
      · rw [if_neg hv]
        by_cases hi : (pmFlags env input).2 = true
        · rw [if_pos hi, if_neg (by decide)]
          exact pmImage_transcript_none _ _ _ _
        · rw [if_neg hi]
  · unfold process_media
    by_cases hni : (fsLookup fs input).isNone = true
    · rw [if_pos hni]
      exact Or.inl rfl
    · rw [if_neg hni]
      by_cases hv : (pmFlags env input).1 = true
      · rw [if_pos hv]
        unfold pmVideo
        cases env.ffmpegVideo with
        | none => exact Or.inr rfl
        | some created =>
            show (pmVideoRun env
                (pmApplyOut fs (pmOutputPath env input custom index) created) input
                (pmOutputPath env input custom index) "transcript_only").media = none ∨
              (pmVideoRun env
                (pmApplyOut fs (pmOutputPath env input custom index) created) input
                (pmOutputPath env input custom index) "transcript_only").media = some input
            unfold pmVideoRun
            by_cases hout :
                (fsLookup (pmApplyOut fs (pmOutputPath env input custom index) created)
                  (pmOutputPath env input custom index)).isNone = true
            · rw [if_pos hout]
              exact Or.inr rfl
            · rw [if_neg hout]
              exact Or.inl (pmVideoPost_media_transcript_only _ _ _)
      · rw [if_neg hv]
        by_cases hi : (pmFlags env input).2 = true
        · rw [if_pos hi, if_pos rfl]
          exact Or.inl rfl
        · rw [if_neg hi]
          exact Or.inr rfl

/-- C4 counterexample: a video whose transcode raises, processed with mode
`transcript_only`, yields `media_path = original input path`, not `None` —
the claim "media_path is always None under TranscriptOnly" fails. -/
theorem C4_counterexample :
    (process_media ⟨fun _ => some "video/mp4", none, none, none⟩
        [(⟨"d", "v.mp4"⟩, ⟨5, "raw"⟩)] ⟨"d", "v.mp4"⟩ none 0 "transcript_only").media =
      some ⟨"d", "v.mp4"⟩ ∧
    (process_media ⟨fun _ => some "video/mp4", none, none, none⟩
        [(⟨"d", "v.mp4"⟩, ⟨5, "raw"⟩)] ⟨"d", "v.mp4"⟩ none 0 "transcript_only").media ≠
      none := by
  constructor
  · decide
  · decide

/-! ### C1 -/

theorem pmVideoPost_fs_preserve (env : PMEnv) (fs2 : Fs) (output : FPath) (mode : String)
    (q : FPath) (h : fsLookup fs2 q ≠ none) :
    fsLookup (pmVideoPost env fs2 output mode).fs q ≠ none := by
  unfold pmVideoPost
  split
  · cases env.whisper with
    | none => exact h
    | some text => exact fsLookup_fsWrite_isSome _ _ _ _ h
  · exact h

theorem isNone_false_ne_none {o : Option FsFile} (h : ¬ o.isNone = true) : o ≠ none := by
  intro he
  rw [he] at h
  exact h rfl

theorem pmVideoRun_delete_implies_output (env : PMEnv) (fs1 : Fs) (input output : FPath)
    (mode : String) (h1 : fsLookup fs1 input ≠ none) :
    fsLookup (pmVideoRun env fs1 input output mode).fs input = none →
    fsLookup (pmVideoRun env fs1 input output mode).fs output ≠ none := by
  unfold pmVideoRun
  by_cases hout : (fsLookup fs1 output).isNone
  · rw [if_pos hout]
    intro h2
    exact absurd h2 h1
  · rw [if_neg hout]
    by_cases heq : input = output
    · rw [if_pos heq]
      intro h2
      exact absurd h2 (pmVideoPost_fs_preserve _ _ _ _ _ (heq ▸ h1))
    · rw [if_neg heq]
      intro h2
      apply pmVideoPost_fs_preserve
      rw [fsLookup_fsRemove_ne _ _ _ (fun hoe => heq hoe.symm)]
      exact isNone_false_ne_none hout

theorem pmVideo_delete_implies_output (env : PMEnv) (fs : Fs) (input output : FPath)
    (mode : String) (h1 : fsLookup fs input ≠ none) :
    fsLookup (pmVideo env fs input output mode).fs input = none →
    fsLookup (pmVideo env fs input output mode).fs output ≠ none := by
  unfold pmVideo
  cases env.ffmpegVideo with
  | none =>
      intro h2
      exact absurd h2 h1
  | some created =>
      show fsLookup (pmVideoRun env (pmApplyOut fs output created) input output mode).fs input = none →
        fsLookup (pmVideoRun env (pmApplyOut fs output created) input output mode).fs output ≠ none
      apply pmVideoRun_delete_implies_output
      cases created with
      | none => exact h1
      | some sz => exact fsLookup_fsWrite_isSome _ _ _ _ h1

theorem pmImageRun_delete_implies_output (fs1 : Fs) (input output : FPath)
    (h1 : fsLookup fs1 input ≠ none) :
    fsLookup (pmImageRun fs1 input output).fs input = none →
    fsLookup (pmImageRun fs1 input output).fs output ≠ none := by
  unfold pmImageRun
  by_cases hout : (fsLookup fs1 output).isNone
  · rw [if_pos hout]
    intro h2
    exact absurd h2 h1
  · rw [if_neg hout]
    by_cases heq : input = output
    · rw [if_pos heq]
      intro h2
      exact absurd h2 (heq ▸ h1)
    · rw [if_neg heq]
      intro h2
      rw [fsLookup_fsRemove_ne _ _ _ (fun hoe => heq hoe.symm)]
      exact isNone_false_ne_none hout

theorem pmImageExc_delete_implies_output (fs : Fs) (input output : FPath)
    (h1 : fsLookup fs input ≠ none) :
    fsLookup (pmImageExc fs input output).fs input = none →
    fsLookup (pmImageExc fs input output).fs output ≠ none := by
  unfold pmImageExc
  by_cases heq : input = output
  · rw [if_pos heq]
    intro h2
    exact absurd h2 h1
  · rw [if_neg heq]
    cases hl : fsLookup fs input with
    | none => exact absurd hl h1
    | some fl =>
        intro _
        show fsLookup (fsWrite (fsRemove fs input) output fl) output ≠ none
        rw [fsLookup_fsWrite_self]
        simp

theorem pmImage_delete_implies_output (env : PMEnv) (fs : Fs) (input output : FPath)
    (h1 : fsLookup fs input ≠ none) :
    fsLookup (pmImage env fs input output).fs input = none →
    fsLookup (pmImage env fs input output).fs output ≠ none := by
  unfold pmImage
  cases env.ffmpegImage with
  | none => exact pmImageExc_delete_implies_output fs input output h1
  | some created =>
      show fsLookup (pmImageRun (pmApplyOut fs output created) input output).fs input = none →
        fsLookup (pmImageRun (pmApplyOut fs output created) input output).fs output ≠ none
      apply pmImageRun_delete_implies_output
      cases created with
      | none => exact h1
      | some sz => exact fsLookup_fsWrite_isSome _ _ _ _ h1

/-- C1 (amended): `process_media` deletes the original input file only when
the replacement output file exists at the end of the call — existence alone
is checked (app.py line 99 checks only `output_path.exists()`); a zero-size
replacement still triggers deletion. -/
theorem C1_delete_requires_replacement (env : PMEnv) (fs : Fs) (input : FPath)
    (custom : Option String) (index : Nat) (mode : String)
    (h1 : fsLookup fs input ≠ none)
    (h2 : fsLookup (process_media env fs input custom index mode).fs input = none) :
    fsLookup (process_media env fs input custom index mode).fs
      (pmOutputPath env input custom index) ≠ none := by
  have hni : ¬ (fsLookup fs input).isNone = true := by
    intro h
    exact h1 ((Option.isNone_iff_eq_none).1 h)
  unfold process_media at h2 ⊢
  rw [if_neg hni] at h2 ⊢
  by_cases hv : (pmFlags env input).1 = true
  · rw [if_pos hv] at h2 ⊢
    exact pmVideo_delete_implies_output env fs input _ mode h1 h2
  · rw [if_neg hv] at h2 ⊢
    by_cases hi : (pmFlags env input).2 = true
    · rw [if_pos hi] at h2 ⊢
      by_cases hm : mode = "transcript_only"
      · rw [if_pos hm] at h2 ⊢
        exact absurd h2 h1
      · rw [if_neg hm] at h2 ⊢
        exact pmImage_delete_implies_output env fs input _ h1 h2
    · rw [if_neg hi] at h2 ⊢
      exact absurd h2 h1

/-- C1 counterexample: the transcoder produces an output file of size zero;
the code still deletes the original (it only checks existence, not size), so
"never deletes unless the replacement has non-zero size" is false. -/
theorem C1_counterexample :
    fsLookup [(⟨"d", "v.mkv"⟩, ⟨5, "raw"⟩)] ⟨"d", "v.mkv"⟩ ≠ none ∧
    fsLookup (process_media ⟨fun _ => some "video/x-matroska", some (some 0), none, none⟩
        [(⟨"d", "v.mkv"⟩, ⟨5, "raw"⟩)] ⟨"d", "v.mkv"⟩ none 0 "video_only").fs
      ⟨"d", "v.mkv"⟩ = none ∧
    fsLookup (process_media ⟨fun _ => some "video/x-matroska", some (some 0), none, none⟩
        [(⟨"d", "v.mkv"⟩, ⟨5, "raw"⟩)] ⟨"d", "v.mkv"⟩ none 0 "video_only").fs
      ⟨"d", "v_1080p.mp4"⟩ = some ⟨0, ""⟩ := by
  refine ⟨by decide, by decide, by decide⟩

/-- Witness for C1 on a successful transcode that deletes the original. -/
theorem C1_witness :
    fsLookup (process_media ⟨fun _ => some "video/mp4", some (some 7), none, none⟩
        [(⟨"d", "v.mkv"⟩, ⟨5, "raw"⟩)] ⟨"d", "v.mkv"⟩ none 0 "video_only").fs
      (pmOutputPath ⟨fun _ => some "video/mp4", some (some 7), none, none⟩
        ⟨"d", "v.mkv"⟩ none 0) ≠ none :=
  C1_delete_requires_replacement _ _ _ _ _ _ (by decide) (by decide)

/-! ### C6 -/

theorem data_ne_nil_of_ne_empty {s : String} (h : s ≠ "") : s.data ≠ [] := by
  intro hd
  exact h (String.ext_iff.2 (by rw [hd]))

theorem rfindDot_append_ext (s : List Char) (m : List Char)
    (hm : ∀ c ∈ m, (fun c => decide (c = '.')) c = false) :
    rfindDot (s ++ '.' :: m) = some s.length := by
  unfold rfindDot
  have h1 : (s ++ '.' :: m).reverse = m.reverse ++ '.' :: s.reverse := by
    rw [List.reverse_append, List.reverse_cons, List.append_assoc, List.singleton_append]
  have h2 : List.findIdx? (fun c => decide (c = '.')) (m.reverse ++ '.' :: s.reverse) =
      some m.length := by
    rw [List.findIdx?_append,
      List.findIdx?_eq_none_iff.2 (fun a ha => hm a ((List.mem_reverse).1 ha)),
      List.findIdx?_cons, if_pos (by decide)]
    simp
  rw [h1, h2]
  show some ((s ++ '.' :: m).length - 1 - m.length) = some s.length
  congr 1
  rw [List.length_append, List.length_cons]
  omega

theorem splitName_append_ext (s : String) (m : List Char)
    (hs : s.data ≠ []) (hmnil : m ≠ [])
    (hm : ∀ c ∈ m, (fun c => decide (c = '.')) c = false) :
    splitName (s ++ ⟨'.' :: m⟩) = (s, ⟨'.' :: m⟩) := by
  unfold splitName
  have hdata : (s ++ (⟨'.' :: m⟩ : String)).data = s.data ++ '.' :: m := rfl
  rw [hdata, rfindDot_append_ext s.data m hm]
  show (if 0 < s.data.length ∧ s.data.length < (s.data ++ '.' :: m).length - 1 then
      ((⟨List.take s.data.length (s.data ++ '.' :: m)⟩ : String),
       (⟨List.drop s.data.length (s.data ++ '.' :: m)⟩ : String))
    else (s ++ ⟨'.' :: m⟩, "")) = (s, ⟨'.' :: m⟩)
  have hc : 0 < s.data.length ∧ s.data.length < (s.data ++ '.' :: m).length - 1 := by
    refine ⟨List.length_pos.2 hs, ?_⟩
    have hmp := List.length_pos.2 hmnil
    rw [List.length_append, List.length_cons]
    omega
  rw [if_pos hc, List.take_left, List.drop_left]

/-- C6: with a (non-empty) custom name and a video or image kind, the output
stem is `sanitize(custom_name)` at index 0 and `sanitize(custom_name)_<index+1>`
at every positive index, and the extension is the fixed canonical one for the
kind (`.mp4` for video, `.jpg` for image), overriding the input extension
(app.py lines 64-73). -/
theorem C6_naming_policy (isV isI : Bool) (inName cn : String) (index : Nat)
    (hcn : cn ≠ "") (hk : isV = true ∨ isI = true) :
    (splitName (outputFilename isV isI inName (some cn) index)).1 =
      (if index = 0 then sanitize_filename cn
       else sanitize_filename cn ++ "_" ++ toString (index + 1)) ∧
    (isV = true → (splitName (outputFilename isV isI inName (some cn) index)).2 = ".mp4") ∧
    (isV = false → isI = true →
      (splitName (outputFilename isV isI inName (some cn) index)).2 = ".jpg") := by
  have hsafe := data_ne_nil_of_ne_empty (sanitize_filename_ne_empty cn)
  unfold outputFilename
  simp only [Option.getD_some]
  rw [if_pos hcn]
  have hsN : (if index > 0 then sanitize_filename cn ++ "_" ++ toString (index + 1)
      else sanitize_filename cn).data ≠ [] := by
    split
    · intro h
      exact hsafe (((List.append_eq_nil).1 (((List.append_eq_nil).1 h).1)).1)
    · exact hsafe
  cases isV with
  | true =>
      rw [if_pos rfl]
      have hsp := splitName_append_ext
        (if index > 0 then sanitize_filename cn ++ "_" ++ toString (index + 1)
         else sanitize_filename cn) ['m', 'p', '4'] hsN (by decide) (by decide)
      refine ⟨?_, fun _ => ?_, fun hfalse _ => absurd hfalse (by decide)⟩
      · rw [show ((⟨'.' :: ['m', 'p', '4']⟩ : String)) = ".mp4" from rfl] at hsp
        rw [hsp]
        by_cases hidx : index = 0
        · rw [if_pos hidx, if_neg (by omega)]
        · rw [if_neg hidx, if_pos (by omega)]
      · rw [show ((⟨'.' :: ['m', 'p', '4']⟩ : String)) = ".mp4" from rfl] at hsp
        rw [hsp]
  | false =>
      cases isI with
      | true =>
          rw [if_neg (show ¬(false = true) by decide), if_pos (show (true : Bool) = true from rfl)]
          have hsp := splitName_append_ext
            (if index > 0 then sanitize_filename cn ++ "_" ++ toString (index + 1)
             else sanitize_filename cn) ['j', 'p', 'g'] hsN (by decide) (by decide)
          rw [show ((⟨'.' :: ['j', 'p', 'g']⟩ : String)) = ".jpg" from rfl] at hsp
          refine ⟨?_, fun hfalse => absurd hfalse (by decide), fun _ _ => ?_⟩
          · rw [hsp]
            by_cases hidx : index = 0
            · rw [if_pos hidx, if_neg (by omega)]
            · rw [if_neg hidx, if_pos (by omega)]
          · rw [hsp]
      | false =>
          rcases hk with h | h
          · exact absurd h (by decide)
          · exact absurd h (by decide)

/-- Witness for C6: index 2 of a custom-named carousel gets stem `trip_3`. -/
theorem C6_witness :
    (splitName (outputFilename true false "abc123.mkv" (some "trip") 2)).1 = "trip_3" ∧
    (splitName (outputFilename true false "abc123.mkv" (some "trip") 2)).2 = ".mp4" := by
  have h := C6_naming_policy true false "abc123.mkv" "trip" 2 (by decide) (Or.inl rfl)
  refine ⟨?_, h.2.1 rfl⟩
  rw [h.1]
  decide

/-! ## Sorting model

Python `list.sort()` on the discovered names, modelled as insertion sort
for the lexicographic-by-code-point order of Python strings. -/

/-- Lexicographic comparison of character lists by code point. -/
def lexLe : List Char → List Char → Bool
  | [], _ => true
  | _ :: _, [] => false
  | a :: as, b :: bs =>
      if a.toNat < b.toNat then true
      else if b.toNat < a.toNat then false
      else lexLe as bs

/-- Python string `≤` (lexicographic by code point). -/
def strLe (a b : String) : Bool := lexLe a.data b.data

/-- Insert into a sorted list. -/
def insertSorted (a : String) : List String → List String
  | [] => [a]
  | b :: bs => if strLe a b then a :: b :: bs else b :: insertSorted a bs

/-- Python `list.sort()` (insertion sort w.r.t. `strLe`). -/
def sortStr : List String → List String
  | [] => []
  | a :: as => insertSorted a (sortStr as)

theorem lexLe_trans (a : List Char) :
    ∀ b c, lexLe a b = true → lexLe b c = true → lexLe a c = true := by
  induction a with
  | nil => intro b c _ _; rfl
  | cons x xs ih =>
      intro b c hab hbc
      cases b with
      | nil => simp [lexLe] at hab
      | cons y ys =>
          cases c with
          | nil => simp [lexLe] at hbc
          | cons z zs =>
              unfold lexLe at hab hbc ⊢
              by_cases h1 : x.toNat < y.toNat
              · rw [if_pos h1] at hab
                by_cases h2 : y.toNat < z.toNat
                · rw [if_pos (show x.toNat < z.toNat by omega)]
                · rw [if_neg h2] at hbc
                  by_cases h3 : z.toNat < y.toNat
                  · rw [if_pos h3] at hbc
                    exact absurd hbc (by simp)
                  · rw [if_pos (show x.toNat < z.toNat by omega)]
              · rw [if_neg h1] at hab
                by_cases h1b : y.toNat < x.toNat
                · rw [if_pos h1b] at hab
                  exact absurd hab (by simp)
                · rw [if_neg h1b] at hab
                  by_cases h2 : y.toNat < z.toNat
                  · rw [if_pos (show x.toNat < z.toNat by omega)]
                  · rw [if_neg h2] at hbc
                    by_cases h3 : z.toNat < y.toNat
                    · rw [if_pos h3] at hbc
                      exact absurd hbc (by simp)
                    · rw [if_neg h3] at hbc
                      rw [if_neg (show ¬ x.toNat < z.toNat by omega),
                        if_neg (show ¬ z.toNat < x.toNat by omega)]
                      exact ih ys zs hab hbc

theorem lexLe_total (a : List Char) : ∀ b, lexLe a b = true ∨ lexLe b a = true := by
  induction a with
  | nil => intro b; exact Or.inl rfl
  | cons x xs ih =>
      intro b
      cases b with
      | nil => exact Or.inr rfl
      | cons y ys =>
          unfold lexLe
          by_cases h1 : x.toNat < y.toNat
          · left; rw [if_pos h1]
          · by_cases h2 : y.toNat < x.toNat
            · right; rw [if_pos h2]
            · rcases ih ys with h | h
              · left; rw [if_neg h1, if_neg h2]; exact h
              · right; rw [if_neg h2, if_neg h1]; exact h

theorem strLe_trans (a b c : String) (h1 : strLe a b = true) (h2 : strLe b c = true) :
    strLe a c = true :=
  lexLe_trans a.data b.data c.data h1 h2

theorem strLe_total (a b : String) : strLe a b = true ∨ strLe b a = true :=
  lexLe_total a.data b.data

theorem mem_insertSorted (a x : String) (l : List String) :
    x ∈ insertSorted a l ↔ x = a ∨ x ∈ l := by
  induction l with
  | nil => simp [insertSorted]
  | cons b bs ih =>
      unfold insertSorted
      by_cases hab : strLe a b = true
      · rw [if_pos hab]
        simp [List.mem_cons]
      · rw [if_neg hab]
        simp [List.mem_cons, ih]
        tauto

theorem pairwise_insertSorted (a : String) (l : List String)
    (h : l.Pairwise (fun x y => strLe x y = true)) :
    (insertSorted a l).Pairwise (fun x y => strLe x y = true) := by
  induction l with
  | nil => simp [insertSorted]
  | cons b bs ih =>
      rcases List.pairwise_cons.1 h with ⟨hb, hbs⟩
      unfold insertSorted
      by_cases hab : strLe a b = true
      · rw [if_pos hab]
        refine List.pairwise_cons.2 ⟨?_, h⟩
        intro y hy
        rcases List.mem_cons.1 hy with rfl | hy2
        · exact hab
        · exact strLe_trans a b y hab (hb y hy2)
      · rw [if_neg hab]
        refine List.pairwise_cons.2 ⟨?_, ih hbs⟩
        intro y hy
        rcases (mem_insertSorted a y bs).1 hy with rfl | hy2
        · rcases strLe_total y b with h1 | h1
          · exact absurd h1 hab
          · exact h1
        · exact hb y hy2

theorem sortStr_pairwise (l : List String) :
    (sortStr l).Pairwise (fun x y => strLe x y = true) := by
  induction l with
  | nil => simp [sortStr]
  | cons a as ih => exact pairwise_insertSorted a (sortStr as) ih

theorem mem_sortStr (x : String) (l : List String) : x ∈ sortStr l ↔ x ∈ l := by
  induction l with
  | nil => simp [sortStr]
  | cons a as ih =>
      unfold sortStr
      rw [mem_insertSorted, ih, List.mem_cons]

/-! ## Acquisition stage (`download_content`, app.py lines 144-185) -/

/-- In-progress/partial artifact test (app.py line 169): names ending in
`.part` or `.ytdl` are excluded from the discovered set. -/
def isTempArtifact (f : String) : Bool := endsWithStr f ".part" || endsWithStr f ".ytdl"

/-- Environment of one `download_content` call.  `fetchWrites` are the files
the external `yt_dlp` invocation writes into the scratch directory (its only
observable effect); `fetchRaises` is the message of the exception it raises,
if any — the source swallows it (`except Exception as e: pass`, app.py lines
164-165) and never reads it, which is exactly why it is unused below.
`pm` gives the per-file environment of the `process_media` calls. -/
structure DLEnv where
  fetchWrites : List (String × FsFile)
  fetchRaises : Option String
  pm : String → PMEnv

/-- Result of `download_content`: the two returned path lists, the returned
error, the filesystem afterwards, and the format preference of every
external fetch invocation that was made (app.py line 158 configures the
single call with `'bestvideo+bestaudio/best'`). -/
structure DLResult where
  media : List String
  transcripts : List String
  error : Option String
  fs : Fs
  fetchFormats : List String

/-- Filesystem effect of the external fetch: the files it writes. -/
def applyFetch (env : DLEnv) (fs : Fs) (dir : String) : Fs :=
  env.fetchWrites.foldl (fun a nf => fsWrite a ⟨dir, nf.1⟩ nf.2) fs

/-- The discovered file set (app.py lines 145, 167-170): directory listing
after the fetch minus the listing before, `.part`/`.ytdl` names excluded,
sorted.  (`set(...)` difference is modelled by `dedup` + membership filter.) -/
def newFilesOf (env : DLEnv) (fs : Fs) (dir : String) : List String :=
  sortStr (((listDir (applyFetch env fs dir) dir).dedup.filter
      (fun f => decide (¬ f ∈ listDir fs dir))).filter (fun f => !(isTempArtifact f)))

/-- The per-file loop of app.py lines 175-183: enumerate the discovered
names, run `process_media` threading the filesystem, and accumulate the
truthy media and transcript paths in two independent lists. -/
def processLoop (env : DLEnv) (dir : String) (custom : Option String) (mode : String)
    (nf : List String) (fs1 : Fs) : List String × List String × Fs :=
  nf.enum.foldl (fun acc p =>
    ((acc.1 ++ match (process_media (env.pm p.2) acc.2.2 ⟨dir, p.2⟩ custom p.1 mode).media with
        | some mp => [fullPath mp]
        | none => []),
     (acc.2.1 ++ match (process_media (env.pm p.2) acc.2.2 ⟨dir, p.2⟩ custom p.1 mode).transcript with
        | some tp => [fullPath tp]
        | none => []),
     (process_media (env.pm p.2) acc.2.2 ⟨dir, p.2⟩ custom p.1 mode).fs)) ([], [], fs1)

/-- Embedding of `download_content` (app.py lines 144-185). -/
def download_content (env : DLEnv) (fs : Fs) (dir url : String) (custom : Option String)
    (mode : String) : DLResult :=
  if newFilesOf env fs dir = [] then
    ⟨[], [], some "No files found (Check cookies or link)", applyFetch env fs dir,
     ["bestvideo+bestaudio/best"]⟩
  else
    ⟨(processLoop env dir custom mode (newFilesOf env fs dir) (applyFetch env fs dir)).1,
     (processLoop env dir custom mode (newFilesOf env fs dir) (applyFetch env fs dir)).2.1,
     none,
     (processLoop env dir custom mode (newFilesOf env fs dir) (applyFetch env fs dir)).2.2,
     ["bestvideo+bestaudio/best"]⟩

/-! ## Batch orchestrator result handling (`main`, app.py lines 265-287) -/

/-- One row of the results view (app.py lines 280-284). -/
structure Item where
  media : Option String
  transcript : Option String
  name : String
deriving DecidableEq

/-- Item construction of app.py lines 278-285: one item per index up to the
longer of the two lists, pairing positionally, with the display name taken
from the media path when present and truthy. -/
def buildItems (m t : List String) : List Item :=
  (List.range (max m.length t.length)).map (fun idx =>
    ⟨m[idx]?, t[idx]?,
     match m[idx]? with
     | some p => if p ≠ "" then basename p else "Item " ++ toString (idx + 1)
     | none => "Item " ++ toString (idx + 1)⟩)

/-- Per-line accumulation of app.py lines 267-287: lines with any media or
transcript paths extend `processed_items`; lines with neither are appended
to `failed_lines` together with the acquisition error message. -/
def recordLine (st : List Item × List (String × Option String)) (url : String)
    (dl : DLResult) : List Item × List (String × Option String) :=
  if dl.media = [] ∧ dl.transcripts = [] then (st.1, st.2 ++ [(url, dl.error)])
  else (st.1 ++ buildItems dl.media dl.transcripts, st.2)

/-! ### C7 -/

/-- C7: the discovered file set is exactly the after-listing minus the
before-listing with `.part`/`.ytdl` artifacts excluded; it never contains a
pre-existing file, and it is sorted lexicographically. -/
theorem C7_acquired_file_set (env : DLEnv) (fs : Fs) (dir : String) (f : String) :
    (f ∈ newFilesOf env fs dir ↔
      (f ∈ listDir (applyFetch env fs dir) dir ∧ ¬ f ∈ listDir fs dir ∧
        isTempArtifact f = false)) ∧
    (newFilesOf env fs dir).Pairwise (fun a b => strLe a b = true) := by
  constructor
  · unfold newFilesOf
    rw [mem_sortStr]
    simp only [List.mem_filter, List.mem_dedup, decide_eq_true_eq, Bool.not_eq_true',
      and_assoc]
  · exact sortStr_pairwise _

/-- Witness for C7: a fresh file is discovered, a pre-existing one and a
`.part` artifact are not. -/
theorem C7_witness :
    "b.mp4" ∈ newFilesOf
      ⟨[("b.mp4", ⟨3, ""⟩), ("c.part", ⟨1, ""⟩)], none, fun _ => ⟨fun _ => none, none, none, none⟩⟩
      [(⟨"d", "a.mp4"⟩, ⟨2, ""⟩)] "d" :=
  (C7_acquired_file_set _ _ _ _).1.mpr ⟨by decide, by decide, by decide⟩

/-! ### C2 -/

/-- C2 (amended): `download_content` performs no fallback: every call makes
exactly one external fetch attempt, with format preference
`bestvideo+bestaudio/best`; when the fetch raises or the directory diff is
empty, it directly reports the fixed error with empty file lists. -/
theorem C2_single_attempt_no_fallback (env : DLEnv) (fs : Fs) (dir url : String)
    (custom : Option String) (mode : String) :
    (download_content env fs dir url custom mode).fetchFormats =
      ["bestvideo+bestaudio/best"] ∧
    (newFilesOf env fs dir = [] →
      (download_content env fs dir url custom mode).media = [] ∧
      (download_content env fs dir url custom mode).transcripts = [] ∧
      (download_content env fs dir url custom mode).error =
        some "No files found (Check cookies or link)") := by
  unfold download_content
  by_cases h : newFilesOf env fs dir = []
  · rw [if_pos h]
    exact ⟨rfl, fun _ => ⟨rfl, rfl, rfl⟩⟩
  · rw [if_neg h]
    exact ⟨rfl, fun hc => absurd hc h⟩

/-- C2 counterexample: the fetch raises (message `"boom"`) and produces no
file — the code performs no fallback attempt: the log of fetch invocations
has exactly one entry (no second, simpler-format attempt exists in
app.py lines 161-165), and the fixed error is reported. -/
theorem C2_counterexample :
    (download_content ⟨[], some "boom", fun _ => ⟨fun _ => none, none, none, none⟩⟩
        [] "d" "u" none "both").fetchFormats = ["bestvideo+bestaudio/best"] ∧
    (download_content ⟨[], some "boom", fun _ => ⟨fun _ => none, none, none, none⟩⟩
        [] "d" "u" none "both").fetchFormats.length = 1 ∧
    (download_content ⟨[], some "boom", fun _ => ⟨fun _ => none, none, none, none⟩⟩
        [] "d" "u" none "both").error = some "No files found (Check cookies or link)" ∧
    (download_content ⟨[], some "boom", fun _ => ⟨fun _ => none, none, none, none⟩⟩
        [] "d" "u" none "both").media = [] := by
  refine ⟨by decide, by decide, by decide, by decide⟩

/-- Witness for C2 on an env with an empty fetch. -/
theorem C2_witness :
    (download_content ⟨[], none, fun _ => ⟨fun _ => none, none, none, none⟩⟩
        [] "w" "u2" none "both").media = [] ∧
    (download_content ⟨[], none, fun _ => ⟨fun _ => none, none, none, none⟩⟩
        [] "w" "u2" none "both").transcripts = [] ∧
    (download_content ⟨[], none, fun _ => ⟨fun _ => none, none, none, none⟩⟩
        [] "w" "u2" none "both").error = some "No files found (Check cookies or link)" :=
  (C2_single_attempt_no_fallback _ _ _ _ _ _).2 (by decide)

/-! ### C3 -/

/-- C3 (amended): a line that yields zero artifacts is recorded with the
acquisition error as its message; that error is the fixed string
`"No files found (Check cookies or link)"` whenever the directory diff is
empty — regardless of whether the fetch raised, its message being discarded
— and it is `none` (absent) when files were discovered but none was usable. -/
theorem C3_failure_message_uniform (env : DLEnv) (fs : Fs) (dir url : String)
    (custom : Option String) (mode : String)
    (st : List Item × List (String × Option String)) :
    ((download_content env fs dir url custom mode).media = [] ∧
      (download_content env fs dir url custom mode).transcripts = [] →
      (recordLine st url (download_content env fs dir url custom mode)).2 =
        st.2 ++ [(url, (download_content env fs dir url custom mode).error)]) ∧
    (newFilesOf env fs dir = [] →
      (download_content env fs dir url custom mode).error =
        some "No files found (Check cookies or link)") ∧
    (newFilesOf env fs dir ≠ [] →
      (download_content env fs dir url custom mode).error = none) := by
  refine ⟨?_, ?_, ?_⟩
  · intro hc
    unfold recordLine
    rw [if_pos hc]
  · intro h
    unfold download_content
    rw [if_pos h]
  · intro h
    unfold download_content
    rw [if_neg h]

/-- C3 counterexample: a fetch that raises with message `"boom"` and a fetch
that succeeds with zero files produce the SAME recorded message (the fixed
string), and the raised message is never propagated — the claim that the two
causes never produce the same message is false. -/
theorem C3_counterexample :
    (download_content ⟨[], some "boom", fun _ => ⟨fun _ => none, none, none, none⟩⟩
        [] "d" "u" none "both").error =
      (download_content ⟨[], none, fun _ => ⟨fun _ => none, none, none, none⟩⟩
        [] "d" "u" none "both").error ∧
    (download_content ⟨[], some "boom", fun _ => ⟨fun _ => none, none, none, none⟩⟩
        [] "d" "u" none "both").error = some "No files found (Check cookies or link)" ∧
    (download_content ⟨[], some "boom", fun _ => ⟨fun _ => none, none, none, none⟩⟩
        [] "d" "u" none "both").error ≠ some "boom" := by
  refine ⟨by decide, by decide, by decide⟩

/-- Witness for C3: an empty acquisition is recorded in `failed_lines` with
the acquisition error. -/
theorem C3_witness :
    (recordLine (([], []) : List Item × List (String × Option String)) "u"
        (download_content ⟨[], none, fun _ => ⟨fun _ => none, none, none, none⟩⟩
          [] "d" "u" none "both")).2 =
      [] ++ [("u", (download_content ⟨[], none, fun _ => ⟨fun _ => none, none, none, none⟩⟩
          [] "d" "u" none "both").error)] :=
  (C3_failure_message_uniform _ _ _ _ _ _ _).1 ⟨by decide, by decide⟩

/-! ### C10 -/

/-- C10: a line with at least one media or transcript path contributes
exactly `max |media| |transcripts|` items, pairing the idx-th media path
with the idx-th transcript path positionally; with a mixed image/video
line the transcript of the video is attached to the item holding the
image's media path (last conjunct). -/
theorem C10_positional_pairing (m t : List String)
    (st : List Item × List (String × Option String)) (url : String)
    (e : Option String) (fsx : Fs) (fmts : List String)
    (h : ¬ (m = [] ∧ t = [])) :
    (recordLine st url ⟨m, t, e, fsx, fmts⟩).1 = st.1 ++ buildItems m t ∧
    (recordLine st url ⟨m, t, e, fsx, fmts⟩).2 = st.2 ∧
    (buildItems m t).length = max m.length t.length ∧
    (∀ i, i < max m.length t.length →
      Option.map Item.media (buildItems m t)[i]? = some m[i]? ∧
      Option.map Item.transcript (buildItems m t)[i]? = some t[i]?) ∧
    (buildItems ["/s/a.jpg", "/s/b.mp4"] ["/s/b.txt"])[0]? =
      some ⟨some "/s/a.jpg", some "/s/b.txt", "a.jpg"⟩ := by
  refine ⟨?_, ?_, ?_, ?_, by decide⟩
  · unfold recordLine
    rw [if_neg h]
  · unfold recordLine
    rw [if_neg h]
  · unfold buildItems
    rw [List.length_map, List.length_range]
  · intro i hi
    unfold buildItems
    rw [List.getElem?_map, List.getElem?_range hi]
    exact ⟨rfl, rfl⟩

/-- Witness for C10 at one media path and no transcript. -/
theorem C10_witness :
    (recordLine (([], []) : List Item × List (String × Option String)) "u"
        ⟨["x"], [], none, [], []⟩).2 = [] ∧
    (buildItems ["x"] []).length = max 1 0 := by
  have h := C10_positional_pairing ["x"] []
    (([], []) : List Item × List (String × Option String)) "u" none [] [] (by simp)
  exact ⟨h.2.1, h.2.2.1⟩

/-! ### C8 -/

/-- C8: transcription is best-effort.  For a video input whose transcode
succeeds, in a transcribing mode: a speech-to-text failure yields
`transcript = None` while the media result is unchanged (no exception
escapes — `process_media` stays total); on success, the stripped text is
persisted to a sibling `.txt` file sharing the output's stem, and that
file's content is the trimmed text.  Moreover a line whose media list is
non-empty is never recorded as failed. -/
theorem C8_transcription_best_effort (env : PMEnv) (fs : Fs) (input : FPath)
    (custom : Option String) (index : Nat) (mode : String)
    (hm : mode = "transcript_only" ∨ mode = "both")
    (hex : fsLookup fs input ≠ none)
    (hv : (pmFlags env input).1 = true)
    (sz : Nat) (hff : env.ffmpegVideo = some (some sz)) :
    (env.whisper = none →
      (process_media env fs input custom index mode).transcript = none ∧
      (process_media env fs input custom index mode).media =
        pmDeliver mode (pmOutputPath env input custom index)) ∧
    (∀ text, env.whisper = some text →
      (process_media env fs input custom index mode).transcript =
        some (txtPathOf (pmOutputPath env input custom index)) ∧
      fsLookup (process_media env fs input custom index mode).fs
          (txtPathOf (pmOutputPath env input custom index)) =
        some ⟨(pyStrip text).data.length, pyStrip text⟩ ∧
      (process_media env fs input custom index mode).media =
        pmDeliver mode (pmOutputPath env input custom index)) ∧
    (∀ (ms ts : List String) (st : List Item × List (String × Option String))
        (url : String) (e : Option String) (fsx : Fs) (fmts : List String),
      ms ≠ [] → (recordLine st url ⟨ms, ts, e, fsx, fmts⟩).2 = st.2) := by
  have hni : ¬ (fsLookup fs input).isNone = true := by
    intro h
    exact hex ((Option.isNone_iff_eq_none).1 h)
  have hpm : process_media env fs input custom index mode =
      pmVideoPost env
        (if input = pmOutputPath env input custom index then
          fsWrite fs (pmOutputPath env input custom index) ⟨sz, ""⟩
         else fsRemove (fsWrite fs (pmOutputPath env input custom index) ⟨sz, ""⟩) input)
        (pmOutputPath env input custom index) mode := by
    unfold process_media
    rw [if_neg hni, if_pos hv]
    unfold pmVideo
    rw [hff]
    show pmVideoRun env (fsWrite fs (pmOutputPath env input custom index) ⟨sz, ""⟩)
      input (pmOutputPath env input custom index) mode = _
    unfold pmVideoRun
    rw [if_neg (by rw [fsLookup_fsWrite_self]; simp)]
  refine ⟨?_, ?_, ?_⟩
  · intro hw
    rw [hpm]
    unfold pmVideoPost
    rw [if_pos hm, hw]
    exact ⟨rfl, rfl⟩
  · intro text hw
    rw [hpm]
    unfold pmVideoPost
    rw [if_pos hm, hw]
    refine ⟨rfl, ?_, rfl⟩
    exact fsLookup_fsWrite_self _ _ _
  · intro ms ts st url e fsx fmts hms
    unfold recordLine
    rw [if_neg (fun hc => hms hc.1)]

/-- Witness for C8: a concrete successful transcription writes `clip.txt`
with the stripped text. -/
theorem C8_witness :
    (process_media ⟨fun _ => some "video/mp4", some (some 9), none, some " hi "⟩
        [(⟨"d", "v.mov"⟩, ⟨3, "x"⟩)] ⟨"d", "v.mov"⟩ (some "clip") 0 "both").transcript =
      some ⟨"d", "clip.txt"⟩ ∧
    fsLookup (process_media ⟨fun _ => some "video/mp4", some (some 9), none, some " hi "⟩
        [(⟨"d", "v.mov"⟩, ⟨3, "x"⟩)] ⟨"d", "v.mov"⟩ (some "clip") 0 "both").fs
      ⟨"d", "clip.txt"⟩ = some ⟨2, "hi"⟩ := by
  have h := (C8_transcription_best_effort
      ⟨fun _ => some "video/mp4", some (some 9), none, some " hi "⟩
      [(⟨"d", "v.mov"⟩, ⟨3, "x"⟩)] ⟨"d", "v.mov"⟩ (some "clip") 0 "both"
      (Or.inr rfl) (by decide) (by decide) 9 rfl).2.1 " hi " rfl
  have h2 : txtPathOf (pmOutputPath
      ⟨fun _ => some "video/mp4", some (some 9), none, some " hi "⟩
      ⟨"d", "v.mov"⟩ (some "clip") 0) = ⟨"d", "clip.txt"⟩ := by decide
  rw [h2] at h
  refine ⟨h.1, ?_⟩
  rw [h.2.1]
  decide

end App
